import Mathlib

set_option maxRecDepth 100000

/-!
Verification of the conversation-memory and RAG-retrieval core of the
sci-assist repository against its natural-language specification.

The development shallowly embeds the Python source:

* `src/ajsgptrag/src/wikipedia_retriever.py` — `WikipediaChunk`,
  `chunk_text`, `clean_text`, `search_wikipedia`, `get_page_content`,
  `retrieve_and_chunk`;
* `src/ajsgptrag/src/vector_store.py` — `VectorStore.add_embeddings`,
  `VectorStore.search`;
* `src/ajsgptrag/src/rag_system.py` — `WikipediaRAG.retrieve_context`,
  `WikipediaRAG.format_context`;
* `src/src/discord_llm_bot/conversation/memory.py` — `MemoryManager`.

Text is modelled as `List Char` (Python `str` is indexed by code points),
machine floats as `ℚ` (the claims under study concern result counts,
ordering and control flow, never rounding), and Python exceptions as
`Except PyExc`.  External collaborators (the embedding model, the
Wikipedia API, tiktoken, file persistence) are parameters supplying their
results or failures.
-/

/-- Python exceptions that can cross the boundaries modelled here.  A single
universe of exception values: which constructor is raised never influences
control flow in the embedded code, only whether one is raised. -/
inductive PyExc where
  | dimensionMismatch
  | indexError
  | embeddingFailure
  | fetchFailure
  | saveFailure
  deriving DecidableEq, Repr

instance {ε α : Type} [DecidableEq ε] [DecidableEq α] : DecidableEq (Except ε α)
  | .ok a, .ok b => if h : a = b then .isTrue (by rw [h]) else .isFalse (by simp [h])
  | .ok _, .error _ => .isFalse (by simp)
  | .error _, .ok _ => .isFalse (by simp)
  | .error e, .error f => if h : e = f then .isTrue (by rw [h]) else .isFalse (by simp [h])

/-- Configuration constant `CHUNK_SIZE` from `src/ajsgptrag/src/config.py`. -/
def CHUNK_SIZE : Nat := 600

/-- Configuration constant `CHUNK_OVERLAP` from `config.py`. -/
def CHUNK_OVERLAP : Nat := 100

/-- Configuration constant `MAX_CHUNKS_PER_ARTICLE` from `config.py`. -/
def MAX_CHUNKS_PER_ARTICLE : Nat := 15

/-- Configuration constant `TOP_K_RETRIEVAL` from `config.py`. -/
def TOP_K_RETRIEVAL : Nat := 8

/-- Configuration constant `MIN_SIMILARITY_THRESHOLD` (0.6) from `config.py`. -/
def MIN_SIMILARITY_THRESHOLD : ℚ := 3 / 5

/-- Configuration constant `MAX_CONTEXT_LENGTH` from `config.py`. -/
def MAX_CONTEXT_LENGTH : Nat := 2000

/-- The local constant `auto_index_threshold = 0.8` set inside
`WikipediaRAG.retrieve_context`. -/
def auto_index_threshold : ℚ := 4 / 5

/-- The dataclass `WikipediaChunk` of `wikipedia_retriever.py`. -/
structure WikipediaChunk where
  text : List Char
  title : List Char
  url : List Char
  chunk_id : Nat
  start_pos : Nat
  end_pos : Nat
  deriving DecidableEq, Repr

/-- Characters treated as whitespace by Python's `str.strip()` (the ASCII
whitespace class; the texts handled by the repository are ASCII after
`clean_text`). -/
def isPySpace (c : Char) : Bool :=
  c = ' ' || c = '\t' || c = '\n' || c = '\x0d' || c = '\x0b' || c = '\x0c'

/-- Python `str.strip()`: drop leading and trailing whitespace. -/
def pyStrip (l : List Char) : List Char :=
  ((l.dropWhile isPySpace).reverse.dropWhile isPySpace).reverse

/-- Index of the last occurrence of `'.'` in a character list, if any. -/
def lastDotIdx : List Char → Option Nat
  | [] => none
  | c :: rest =>
    match lastDotIdx rest with
    | some j => some (j + 1)
    | none => if c = '.' then some 0 else none

/-- Python `text.rfind('.', start, stop)`: the largest index `i` with
`start ≤ i < min stop (len text)` and `text[i] = '.'`, as an `Option`
(Python returns `-1` when absent). -/
def rfindDot (t : List Char) (start stop : Nat) : Option Nat :=
  (lastDotIdx ((t.drop start).take (stop - start))).map (start + ·)

/-- The end position chosen for the window starting at `start` in the loop of
`WikipediaRetriever.chunk_text`: a raw cut at `start + CHUNK_SIZE` (clipped to
the text), moved to just past the rightmost period found within
`CHUNK_OVERLAP` extra characters when that period lies beyond the window's
midpoint. -/
def chunkEnd (t : List Char) (start : Nat) : Nat :=
  let e0 := min (start + CHUNK_SIZE) t.length
  if e0 < t.length then
    match rfindDot t start (e0 + CHUNK_OVERLAP) with
    | some sentence_end =>
      if start + CHUNK_SIZE / 2 < sentence_end then sentence_end + 1 else e0
    | none => e0
  else e0

/-- The `while` loop of `WikipediaRetriever.chunk_text` (lines 403–433 of
`wikipedia_retriever.py`).  `fuel` is structural-recursion fuel; the caller
passes `t.length + 1`, which exceeds the iteration count because `start`
advances by at least `CHUNK_SIZE - CHUNK_OVERLAP = 500 ≥ 1` per step. -/
def chunkLoop (t title url : List Char) : Nat → Nat → Nat → List WikipediaChunk
  | 0, _, _ => []
  | fuel + 1, start, chunk_id =>
    if start < t.length ∧ chunk_id < MAX_CHUNKS_PER_ARTICLE then
      let e := chunkEnd t start
      let ctext := pyStrip ((t.drop start).take (e - start))
      let next := max (start + CHUNK_SIZE - CHUNK_OVERLAP) e
      if ctext = [] then
        chunkLoop t title url fuel next chunk_id
      else
        { text := ctext, title := title, url := url,
          chunk_id := chunk_id, start_pos := start, end_pos := e } ::
          chunkLoop t title url fuel next (chunk_id + 1)
    else []

/-- `WikipediaRetriever.chunk_text` (lines 388–434): a short text becomes a
single untouched chunk, a long one is windowed by `chunkLoop`. -/
def chunk_text (t title url : List Char) : List WikipediaChunk :=
  if t.length ≤ CHUNK_SIZE then
    [{ text := t, title := title, url := url,
       chunk_id := 0, start_pos := 0, end_pos := t.length }]
  else
    chunkLoop t title url (t.length + 1) 0 0

/-- Regex `r'\[\d+\]'` removal from `WikipediaRetriever.clean_text`: drop
every maximal substring of the shape `[` digits⁺ `]`. -/
def removeCitations : List Char → List Char
  | [] => []
  | '[' :: rest =>
    let ds := rest.takeWhile Char.isDigit
    match h : rest.drop ds.length with
    | ']' :: tail =>
      if ds = [] then '[' :: removeCitations rest else removeCitations tail
    | _ => '[' :: removeCitations rest
  | c :: rest => c :: removeCitations rest
termination_by l => l.length
decreasing_by
  · simp
  · have := congrArg List.length h
    simp [List.length_drop] at this
    simp
    omega
  · simp
  · simp

/-- Regex `r'\s+' → ' '` from `clean_text`: collapse whitespace runs. -/
def collapseWs : List Char → List Char
  | [] => []
  | c :: rest =>
    if isPySpace c then ' ' :: collapseWs (rest.dropWhile isPySpace)
    else c :: collapseWs rest
termination_by l => l.length
decreasing_by
  · have := (List.dropWhile_sublist (l := rest) isPySpace).length_le
    simp
    omega
  · simp

/-- `WikipediaRetriever.clean_text` (lines 284–329): strip citation markers,
collapse whitespace, strip the ends. -/
def clean_text (t : List Char) : List Char :=
  pyStrip (collapseWs (removeCitations t))

/-- Outcome of the raw `wikipedia.page(title)` collaborator call as consumed
by `WikipediaRetriever.get_page_content`: success, a disambiguation error
(carrying the outcome of the retry on the first suggested option), a missing
page, or any other exception. -/
inductive PageOutcome where
  | ok (content url : List Char)
  | disambiguation (retry : PageOutcome)
  | pageError
  | otherError
  deriving Repr

/-- `WikipediaRetriever.get_page_content` (lines 222–282): every collaborator
failure is caught inside the method and mapped to `None`; a disambiguation
retries once and swallows any error of the retry with a bare `except`. -/
def get_page_content : PageOutcome → Option (List Char × List Char)
  | .ok content url => some (content, url)
  | .disambiguation retry =>
    match retry with
    | .ok content url => some (content, url)
    | _ => none
  | .pageError => none
  | .otherError => none

/-- `WikipediaRetriever.search_wikipedia` (lines 177–220): the collaborator
call `wikipedia.search` either returns titles or raises a
`WikipediaException`, which the method catches, returning `[]`. -/
def search_wikipedia (raw : Except PyExc (List (List Char))) : List (List Char) :=
  match raw with
  | .ok titles => titles
  | .error _ => []

/-- `WikipediaRetriever.retrieve_and_chunk` (lines 436–526): search, then for
each title fetch (failures per title give `None` and are skipped), clean and
chunk, concatenating all chunks in order. -/
def retrieve_and_chunk (searchRaw : Except PyExc (List (List Char)))
    (page : List Char → PageOutcome) : List WikipediaChunk :=
  (search_wikipedia searchRaw).flatMap fun title =>
    match get_page_content (page title) with
    | none => []
    | some (content, url) => chunk_text (clean_text content) title url

/-- The state of `VectorStore` (`vector_store.py`): the FAISS index is the
ordered list of stored vectors, `metadata` the parallel chunk list,
`embedding_dim` the dimension fixed at construction (`EMBEDDING_DIM = 768`
by default). -/
structure VectorStore where
  embedding_dim : Nat
  vectors : List (List ℚ)
  metadata : List WikipediaChunk
  deriving DecidableEq, Repr

/-- Models `faiss.normalize_L2`.  The library routine rescales each row to
unit Euclidean norm in place; the scale factor is irrational in general and
none of the verified claims depend on score values, so the model keeps rows
unscaled.  Row count and row dimensions — all that the claims observe — are
preserved exactly. -/
def normalize_L2 (embeddings : List (List ℚ)) : List (List ℚ) := embeddings

/-- `VectorStore.add_embeddings` (lines 266–321).  The method body performs
no validation of its own: it normalizes, calls `self.index.add(embeddings)`
— the FAISS call raises when a row dimension differs from the index
dimension, modelled as `PyExc.dimensionMismatch`, before any metadata is
touched — and then extends `self.metadata` by `chunks` unconditionally.
There is no check that `len(embeddings) == len(chunks)`. -/
def VectorStore.add_embeddings (s : VectorStore) (embeddings : List (List ℚ))
    (chunks : List WikipediaChunk) : Except PyExc VectorStore :=
  let embeddings := normalize_L2 embeddings
  if embeddings.any fun v => v.length ≠ s.embedding_dim then
    .error .dimensionMismatch
  else
    .ok { s with vectors := s.vectors ++ embeddings,
                 metadata := s.metadata ++ chunks }

/-- Inner product of two rational vectors (`IndexFlatIP` scoring). -/
def dotQ : List ℚ → List ℚ → ℚ
  | [], _ => 0
  | _, [] => 0
  | a :: as, b :: bs => a * b + dotQ as bs

/-- Pair every stored vector with its slot position and its score against
the query, starting from slot `i`. -/
def scoreSlots (q : List ℚ) : List (List ℚ) → Nat → List (Nat × ℚ)
  | [], _ => []
  | v :: vs, i => (i, dotQ q v) :: scoreSlots q vs (i + 1)

/-- Descending-score ordering on `(slot, score)` pairs, the order in which
`faiss.IndexFlatIP.search` emits its results. -/
def scoreGE (a b : Nat × ℚ) : Prop := b.2 ≤ a.2

instance : DecidableRel scoreGE := fun a b => inferInstanceAs (Decidable (b.2 ≤ a.2))

instance : IsTotal (Nat × ℚ) scoreGE := ⟨fun a b => (le_total b.2 a.2).imp id id⟩

instance : IsTrans (Nat × ℚ) scoreGE := ⟨fun _ _ _ h1 h2 => le_trans h2 h1⟩

/-- The metadata-join loop of `VectorStore.search`: for each returned slot,
`self.metadata[idx]` — an out-of-range slot raises `IndexError`. -/
def lookupChunks (meta : List WikipediaChunk) :
    List (Nat × ℚ) → Except PyExc (List (WikipediaChunk × ℚ))
  | [] => .ok []
  | p :: rest =>
    match meta.get? p.1 with
    | some c => (lookupChunks meta rest).map fun r => (c, p.2) :: r
    | none => .error .indexError

/-- `VectorStore.search` (lines 323–385): empty index short-circuits to `[]`;
otherwise `index.search(query, min(k, ntotal))` returns the top
`min(k, ntotal)` slots by score in descending order (modelled as sorting all
scored slots and taking a prefix; FAISS cannot return `-1` slots when
`k ≤ ntotal`, so the `idx != -1` guard of the source is vacuous here), which
are then joined with `self.metadata`. -/
def VectorStore.search (s : VectorStore) (query : List ℚ) (k : Nat) :
    Except PyExc (List (WikipediaChunk × ℚ)) :=
  if s.vectors.length = 0 then .ok []
  else
    let kk := min k s.vectors.length
    let top := (List.insertionSort scoreGE (scoreSlots query s.vectors 0)).take kk
    lookupChunks s.metadata top

/-- Python `max(scores)` as used in `retrieve_context` (callers guard against
the empty list, where Python would raise; the model returns 0 there, a value
below `auto_index_threshold`, matching the guard's effect). -/
def maxScore (results : List (WikipediaChunk × ℚ)) : ℚ :=
  match results.map (·.2) with
  | [] => 0
  | x :: xs => xs.foldl max x

/-- The collaborators consumed by `WikipediaRAG.retrieve_context`: the query
embedding, the Wikipedia fetch (`retrieve_and_chunk`), the passage-batch
embedding, and index persistence.  Each may raise. -/
structure RagCollab where
  embedQuery : Except PyExc (List ℚ)
  fetchChunks : Except PyExc (List WikipediaChunk)
  embedPassages : List (List Char) → Except PyExc (List (List ℚ))
  saveIndex : Except PyExc Unit

/-- The auto-indexing branch of `retrieve_context` (lines 214–233 of
`rag_system.py`): fetch new chunks; if any, embed them, add them to the
store, persist, re-search, and adopt the re-search results when non-empty;
if the fetcher found nothing, keep the first search's results.  No failure
of the embedding, the add, the save, or the re-search is caught here. -/
def reindexStep (store : VectorStore) (c : RagCollab) (query_embedding : List ℚ)
    (first : List (WikipediaChunk × ℚ)) :
    Except PyExc (VectorStore × List (WikipediaChunk × ℚ)) := do
  let new_chunks ← c.fetchChunks
  if new_chunks = [] then
    pure (store, first)
  else
    let embeddings ← c.embedPassages (new_chunks.map (·.text))
    let store' ← store.add_embeddings embeddings new_chunks
    let _ ← c.saveIndex
    let results ← store'.search query_embedding TOP_K_RETRIEVAL
    pure (store', if results = [] then first else results)

/-- `WikipediaRAG.retrieve_context` (lines 200–247): embed the query, search,
auto-index unless the first results are non-empty with max score at least
`auto_index_threshold`, then filter by `MIN_SIMILARITY_THRESHOLD` and return
the chunk and score lists. -/
def retrieve_context (store : VectorStore) (c : RagCollab) :
    Except PyExc (VectorStore × List WikipediaChunk × List ℚ) := do
  let query_embedding ← c.embedQuery
  let first ← store.search query_embedding TOP_K_RETRIEVAL
  let sr ←
    if first ≠ [] ∧ auto_index_threshold ≤ maxScore first then
      pure (store, first)
    else
      reindexStep store c query_embedding first
  let filtered := sr.2.filter fun p => MIN_SIMILARITY_THRESHOLD ≤ p.2
  pure (sr.1, filtered.map Prod.fst, filtered.map Prod.snd)

/-- The fallback string of `WikipediaRAG.format_context`. -/
def noContextMsg : List Char := "No relevant context available.".toList

/-- One formatted source block of `format_context`: the source-attribution
line `[Source i: title]`, a newline, the chunk text, a newline. -/
def sourceBlock (i : Nat) (c : WikipediaChunk) : List Char :=
  ['[', 'S', 'o', 'u', 'r', 'c', 'e', ' '] ++ Nat.toDigits 10 i ++ [':', ' ']
    ++ c.title ++ [']'] ++ '\n' :: c.text ++ ['\n']

/-- The accumulation loop of `format_context` (lines 291–303): blocks are
appended while `total_length + len(block) ≤ MAX_CONTEXT_LENGTH`; the first
overflowing block stops the loop (`break`, no skip-and-continue).  Note the
running total counts block lengths only, not the join separators. -/
def formatLoop : List WikipediaChunk → Nat → Nat → List (List Char)
  | [], _, _ => []
  | c :: rest, i, total_length =>
    let block := sourceBlock i c
    if MAX_CONTEXT_LENGTH < total_length + block.length then []
    else block :: formatLoop rest (i + 1) (total_length + block.length)

/-- Python `"\n".join(parts)`. -/
def joinNL : List (List Char) → List Char
  | [] => []
  | [b] => b
  | b :: rest => b ++ '\n' :: joinNL rest

/-- `WikipediaRAG.format_context` (lines 249–305). -/
def format_context (chunks : List WikipediaChunk) : List Char :=
  if chunks = [] then noContextMsg
  else joinNL (formatLoop chunks 1 0)

/-- Enum `MessageRole` of `discord_llm_bot/llm/models.py`. -/
inductive MessageRole where
  | system
  | user
  | assistant
  deriving DecidableEq, Repr

/-- The `ChatMessage` model of `llm/models.py`, restricted to the fields
`MemoryManager` reads (`extra_data` is carried but never consulted by the
token accounting, so it is omitted). -/
structure ChatMessage where
  role : MessageRole
  content : String
  name : Option String := none
  deriving DecidableEq, Repr

/-- The database `Message` model (`database/models.py`), restricted to the
fields `MemoryManager.prepare_context` reads: `role`, `content`,
`is_deleted`.  The stored role string is modelled as the enum it is parsed
into. -/
structure Message where
  role : MessageRole
  content : String
  is_deleted : Bool
  deriving DecidableEq, Repr

/-- `MemoryManager` state: the two configuration fields it reads and the
tiktoken encoder collaborator (`none` models the fallback path, taken when
the encoder failed to load or its `encode` raises). -/
structure MemoryManager where
  context_window_tokens : Nat
  max_history : Nat
  encoder : Option (String → Nat)

/-- `MemoryManager.count_tokens` (lines 63–81): delegate to tiktoken when
available, else estimate `max(1, len(text) // 4)`. -/
def MemoryManager.count_tokens (m : MemoryManager) (text : String) : Nat :=
  match m.encoder with
  | some enc => enc text
  | none => max 1 (text.length / 4)

/-- `MemoryManager.count_message_tokens` (lines 83–103): content tokens plus
a fixed overhead of 4, plus name tokens when a name is present. -/
def MemoryManager.count_message_tokens (m : MemoryManager) (msg : ChatMessage) : Nat :=
  m.count_tokens msg.content + 4 +
    (match msg.name with
     | some nm => m.count_tokens nm
     | none => 0)

/-- `MemoryManager.count_messages_tokens` (lines 105–123): message costs
summed, plus a structural overhead of 10. -/
def MemoryManager.count_messages_tokens (m : MemoryManager)
    (messages : List ChatMessage) : Nat :=
  (messages.map m.count_message_tokens).sum + 10

/-- The selection loop of `_apply_truncation_strategy` (lines 223–230): walk
the reversed (newest-first) message list, accepting while the running cost
stays within the budget, stopping at the first overflow; accepted messages
are re-emitted in chronological order. -/
def takeRecentLoop (m : MemoryManager) : List ChatMessage → Int → List ChatMessage
  | [], _ => []
  | msg :: rest, budget =>
    let c := m.count_message_tokens msg
    if (c : Int) ≤ budget then takeRecentLoop m rest (budget - c) ++ [msg]
    else []

/-- Python `l[-n:]` for `n ≥ 0`: the trailing `n` elements — except that
`l[-0:]` is `l[0:]`, the whole list. -/
def pySliceLast (n : Nat) (l : List α) : List α :=
  if n = 0 then l else l.drop (l.length - n)

/-- `MemoryManager._apply_truncation_strategy` (lines 197–250): budget-driven
selection of the most recent messages, then the `max_history` cap
`result_messages[-self.config.max_history:]`. -/
def MemoryManager.apply_truncation_strategy (m : MemoryManager)
    (messages : List ChatMessage) (available_tokens : Int) : List ChatMessage :=
  if m.max_history < (takeRecentLoop m messages.reverse available_tokens).length then
    pySliceLast m.max_history (takeRecentLoop m messages.reverse available_tokens)
  else takeRecentLoop m messages.reverse available_tokens

/-- Conversion of a database message performed inside `prepare_context`
(no `name` is ever set). -/
def toChatMessage (d : Message) : ChatMessage :=
  { role := d.role, content := d.content, name := none }

/-- The system-prompt slot built by `prepare_context`: Python's
`if system_prompt:` treats an empty string like `None`. -/
def MemoryManager.sysMessages (sys : Option String) : List ChatMessage :=
  match sys with
  | some s => if s.length ≠ 0 then [{ role := .system, content := s, name := none }] else []
  | none => []

/-- The token cost reserved for the system prompt by `prepare_context`:
`self.count_message_tokens(chat_messages[0]) if chat_messages else 0`. -/
def MemoryManager.sysCost (m : MemoryManager) (sys : Option String) : Nat :=
  match (MemoryManager.sysMessages sys).head? with
  | some sm => m.count_message_tokens sm
  | none => 0

/-- `MemoryManager.prepare_context` (lines 125–195): reserve the system
prompt's cost, convert the non-deleted database messages, truncate to the
remaining budget, and return the assembled list with its recomputed total
token count. -/
def MemoryManager.prepare_context (m : MemoryManager) (messages : List Message)
    (system_prompt : Option String) : List ChatMessage × Nat :=
  let sysList := MemoryManager.sysMessages system_prompt
  let all_messages := (messages.filter fun d => !d.is_deleted).map toChatMessage
  let available : Int := (m.context_window_tokens : Int) - (m.sysCost system_prompt : Int)
  let context_messages := m.apply_truncation_strategy all_messages available
  let chat_messages := sysList ++ context_messages
  (chat_messages, m.count_messages_tokens chat_messages)

/-- Chunk lists whose consecutive spans touch or overlap
(`next.start_pos ≤ prev.end_pos`). -/
def contiguousB : List WikipediaChunk → Bool
  | [] => true
  | [_] => true
  | a :: b :: rest => decide (b.start_pos ≤ a.end_pos) && contiguousB (b :: rest)

/-- Every character position below `n` lies inside some chunk's span. -/
def coversB (cs : List WikipediaChunk) (n : Nat) : Bool :=
  (List.range n).all fun i => cs.any fun c => decide (c.start_pos ≤ i) && decide (i < c.end_pos)

/-- The last chunk (when one exists) ends exactly at position `n`. -/
def lastEndIs (cs : List WikipediaChunk) (n : Nat) : Bool :=
  match cs.getLast? with
  | none => true
  | some c => decide (c.end_pos = n)

/-- Start offsets are non-decreasing along the list. -/
def nondecreasingStartsB : List WikipediaChunk → Bool
  | [] => true
  | [_] => true
  | a :: b :: rest => decide (a.start_pos ≤ b.start_pos) && nondecreasingStartsB (b :: rest)

/-- The property asserted of `chunk_text` output by the specification's
chunk-layout claim: non-decreasing start offsets, contiguous-or-overlapping
consecutive spans, full coverage of the original text, and a final span
ending at the text's end. -/
@[reducible] def ChunkLayoutClaim (cs : List WikipediaChunk) (n : Nat) : Prop :=
  nondecreasingStartsB cs = true ∧ contiguousB cs = true ∧ coversB cs n = true ∧
    lastEndIs cs n = true

/-- A 1101-character text: 350 letters, a period, 499 letters, a period,
149 letters, then 101 spaces.  The first window cuts at the period at
index 350, the second at the one at index 850, and the final whitespace-only
window is dropped after stripping. -/
def gapText : List Char :=
  List.replicate 350 'a' ++ '.' :: List.replicate 499 'a' ++ '.' :: List.replicate 149 'a'
    ++ List.replicate 101 ' '

/-- The source blocks of chunks numbered consecutively from `i`
(`enumerate(chunks, 1)` passes `i = 1` at the head). -/
def blocksFrom (i : Nat) : List WikipediaChunk → List (List Char)
  | [] => []
  | c :: rest => sourceBlock i c :: blocksFrom (i + 1) rest

/-- What `format_context` guarantees on a non-empty input: the output joins
the blocks of an initial segment of the chunk list, the counted block
lengths stay within `MAX_CONTEXT_LENGTH`, the output length exceeds
`MAX_CONTEXT_LENGTH` by at most the number of uncounted join separators,
and the first excluded chunk (if any) would have overflowed the budget. -/
def FormatContextSpec (cs : List WikipediaChunk) : Prop :=
  ∃ m, m ≤ cs.length ∧
    format_context cs = joinNL (blocksFrom 1 (cs.take m)) ∧
    ((blocksFrom 1 (cs.take m)).map List.length).sum ≤ MAX_CONTEXT_LENGTH ∧
    (format_context cs).length + 1 ≤ MAX_CONTEXT_LENGTH + m ∧
    (∀ c rest, cs.drop m = c :: rest →
      MAX_CONTEXT_LENGTH <
        ((blocksFrom 1 (cs.take m)).map List.length).sum + (sourceBlock (m + 1) c).length)

/-- A chunk with empty text and title: its source block is as small as a
block can be (13–16 characters, depending on the source number). -/
def tinyChunk : WikipediaChunk :=
  { text := [], title := [], url := [], chunk_id := 0, start_pos := 0, end_pos := 0 }

/-- A chunk whose text has exactly 1709 characters. -/
def chunk1709 : WikipediaChunk := { tinyChunk with text := List.replicate 1709 'a' }

/-- Nineteen empty chunks followed by the 1709-character one: the twenty
blocks measure 14×9 + 15×10 + 1724 = 2000 counted characters, so all are
accepted, and the 19 uncounted join separators push the output to 2019
characters. -/
def sepOverflowChunks : List WikipediaChunk :=
  [tinyChunk, tinyChunk, tinyChunk, tinyChunk, tinyChunk, tinyChunk, tinyChunk,
   tinyChunk, tinyChunk, tinyChunk, tinyChunk, tinyChunk, tinyChunk, tinyChunk,
   tinyChunk, tinyChunk, tinyChunk, tinyChunk, tinyChunk, chunk1709]

/-- A chunk whose text has 2001 characters: its very first block (2014
characters) already overflows `MAX_CONTEXT_LENGTH`. -/
def chunk2001 : WikipediaChunk := { tinyChunk with text := List.replicate 2001 'a' }

/-- A sample indexed chunk for the vector-store scenarios. -/
def sampleChunk : WikipediaChunk :=
  { text := ['x'], title := ['T'], url := ['u'], chunk_id := 0, start_pos := 0, end_pos := 1 }

/-- A second sample chunk. -/
def sampleChunk2 : WikipediaChunk := { sampleChunk with chunk_id := 1 }

/-- An empty one-dimensional vector store (the dimension is fixed at
construction; 1 keeps the scenarios small, the source default is 768). -/
def emptyStore1 : VectorStore := { embedding_dim := 1, vectors := [], metadata := [] }

/-- A consistent one-dimensional store holding one indexed chunk. -/
def oneStore : VectorStore :=
  { embedding_dim := 1, vectors := [[1]], metadata := [sampleChunk] }

/-- Collaborators for the embedding-failure scenario: the fetcher finds one
new chunk, and embedding the fetched passages raises. -/
def embedFailCollab : RagCollab :=
  { embedQuery := .ok [1]
    fetchChunks := .ok [sampleChunk]
    embedPassages := fun _ => .error .embeddingFailure
    saveIndex := .ok () }

/-- Collaborators for the degraded-fetch scenario: the Wikipedia search
collaborator raises, `retrieve_and_chunk` therefore returns no chunks, and
the remaining collaborators are healthy. -/
def fetchFailCollab : RagCollab :=
  { embedQuery := .ok [1]
    fetchChunks := .ok (retrieve_and_chunk (.error .fetchFailure) fun _ => .pageError)
    embedPassages := fun texts => .ok (texts.map fun _ => [1])
    saveIndex := .ok () }

/-- A memory manager with a 14-token window (fallback token counting). -/
def smallMgr : MemoryManager :=
  { context_window_tokens := 14, max_history := 10, encoder := none }

/-- A memory manager with a 100-token window. -/
def midMgr : MemoryManager :=
  { context_window_tokens := 100, max_history := 5, encoder := none }

/-- A live user message whose content has 40 characters: 10 content tokens
by the fallback estimate, 14 with the per-message overhead. -/
def msg40 : Message :=
  { role := .user, content := String.mk (List.replicate 40 'a'), is_deleted := false }

theorem lastDotIdx_lt {l : List Char} {j : Nat} (h : lastDotIdx l = some j) :
    j < l.length := by
  induction l generalizing j with
  | nil => simp [lastDotIdx] at h
  | cons c rest ih =>
    rw [lastDotIdx] at h
    cases hrec : lastDotIdx rest with
    | some j0 =>
      rw [hrec] at h
      injection h with h
      have := ih hrec
      simp only [List.length_cons]
      omega
    | none =>
      rw [hrec] at h
      by_cases hc : c = '.'
      · simp only [if_pos hc] at h
        injection h with h
        simp only [List.length_cons]
        omega
      · simp [hc] at h

theorem rfindDot_spec {t : List Char} {s stop j : Nat} (h : rfindDot t s stop = some j) :
    s ≤ j ∧ j < t.length ∧ j < stop := by
  unfold rfindDot at h
  cases hl : lastDotIdx ((t.drop s).take (stop - s)) with
  | none => rw [hl] at h; simp at h
  | some j0 =>
    rw [hl] at h
    simp at h
    have hj := lastDotIdx_lt hl
    rw [List.length_take, List.length_drop] at hj
    have hj2 := Nat.lt_min.mp hj
    omega

theorem pyStrip_length_le (l : List Char) : (pyStrip l).length ≤ l.length := by
  unfold pyStrip
  have h1 := (List.dropWhile_sublist (l := l) isPySpace).length_le
  have h2 :=
    (List.dropWhile_sublist (l := (l.dropWhile isPySpace).reverse) isPySpace).length_le
  simp only [List.length_reverse] at h1 h2 ⊢
  omega

theorem chunkEnd_bounds {t : List Char} {start : Nat} (h : start < t.length) :
    start < chunkEnd t start ∧ chunkEnd t start ≤ t.length ∧
      chunkEnd t start ≤ start + CHUNK_SIZE + CHUNK_OVERLAP := by
  have hsz : 0 < CHUNK_SIZE := by simp [CHUNK_SIZE]
  unfold chunkEnd
  simp only
  have he0lt : start < min (start + CHUNK_SIZE) t.length := Nat.lt_min.mpr ⟨by omega, h⟩
  have he0le : min (start + CHUNK_SIZE) t.length ≤ t.length := min_le_right _ _
  have he0le2 : min (start + CHUNK_SIZE) t.length ≤ start + CHUNK_SIZE := min_le_left _ _
  split
  · split
    · next sentence_end hfind =>
      obtain ⟨hs1, hs2, hs3⟩ := rfindDot_spec hfind
      split
      · exact ⟨by omega, by omega, by omega⟩
      · exact ⟨he0lt, he0le, by omega⟩
    · exact ⟨he0lt, he0le, by omega⟩
  · exact ⟨he0lt, he0le, by omega⟩

theorem chunkLoop_facts (t title url : List Char) :
    ∀ fuel start chunk_id : Nat,
      (∀ c ∈ chunkLoop t title url fuel start chunk_id,
          start ≤ c.start_pos ∧ c.start_pos < c.end_pos ∧ c.end_pos ≤ t.length ∧
            c.text.length ≤ CHUNK_SIZE + CHUNK_OVERLAP) ∧
      List.Chain' (fun a b => a.start_pos + (CHUNK_SIZE - CHUNK_OVERLAP) ≤ b.start_pos)
        (chunkLoop t title url fuel start chunk_id) := by
  intro fuel
  induction fuel with
  | zero => intro start chunk_id; simp [chunkLoop]
  | succ fuel ih =>
    intro start chunk_id
    rw [chunkLoop]
    by_cases hcond : start < t.length ∧ chunk_id < MAX_CHUNKS_PER_ARTICLE
    · simp only [if_pos hcond]
      obtain ⟨hst, -⟩ := hcond
      obtain ⟨he1, he2, he3⟩ := chunkEnd_bounds hst
      have hnext_ge :
          start + (CHUNK_SIZE - CHUNK_OVERLAP) ≤
            max (start + CHUNK_SIZE - CHUNK_OVERLAP) (chunkEnd t start) := by
        have := le_max_left (start + CHUNK_SIZE - CHUNK_OVERLAP) (chunkEnd t start)
        simp only [CHUNK_SIZE, CHUNK_OVERLAP] at *
        omega
      have hnext_gt : start ≤ max (start + CHUNK_SIZE - CHUNK_OVERLAP) (chunkEnd t start) := by
        simp only [CHUNK_SIZE, CHUNK_OVERLAP] at hnext_ge ⊢
        omega
      obtain ⟨ihMem, ihChain⟩ :=
        ih (max (start + CHUNK_SIZE - CHUNK_OVERLAP) (chunkEnd t start)) chunk_id
      obtain ⟨ihMem2, ihChain2⟩ :=
        ih (max (start + CHUNK_SIZE - CHUNK_OVERLAP) (chunkEnd t start)) (chunk_id + 1)
      by_cases hempty : pyStrip ((t.drop start).take (chunkEnd t start - start)) = []
      · simp only [if_pos hempty]
        refine ⟨fun c hc => ?_, ihChain⟩
        have hm := ihMem c hc
        exact ⟨le_trans hnext_gt hm.1, hm.2.1, hm.2.2.1, hm.2.2.2⟩
      · simp only [if_neg hempty]
        constructor
        · intro c hc
          rcases List.mem_cons.mp hc with rfl | hc
        
          · refine ⟨le_refl _, he1, he2, ?_⟩
            have hslice :
                ((t.drop start).take (chunkEnd t start - start)).length ≤
                  chunkEnd t start - start := by
              rw [List.length_take]
              exact min_le_left _ _
            have hstrip := pyStrip_length_le ((t.drop start).take (chunkEnd t start - start))
            simp only
            omega
          · have hm := ihMem2 c hc
            exact ⟨le_trans hnext_gt hm.1, hm.2.1, hm.2.2.1, hm.2.2.2⟩
        · rw [List.chain'_cons']
          refine ⟨fun b hb => ?_, ihChain2⟩
          have hbmem := List.mem_of_mem_head? hb
          have := (ihMem2 b hbmem).1
          simp only
          omega
    · simp [if_neg hcond]

/-- C6: a text no longer than `CHUNK_SIZE` yields exactly one chunk whose
text is the unmodified input, with `chunk_id = 0`, `start_pos = 0` and
`end_pos = len(text)`. -/
theorem chunk_text_short (t title url : List Char) (h : t.length ≤ CHUNK_SIZE) :
    chunk_text t title url =
      [{ text := t, title := title, url := url,
         chunk_id := 0, start_pos := 0, end_pos := t.length }] := by
  unfold chunk_text
  rw [if_pos h]

/-- Witness for `chunk_text_short` at the five-character text `hello`. -/
theorem chunk_text_short_witness :
    "hello".toList.length ≤ CHUNK_SIZE ∧
      chunk_text "hello".toList ['T'] ['u'] =
        [{ text := "hello".toList, title := ['T'], url := ['u'],
           chunk_id := 0, start_pos := 0, end_pos := "hello".toList.length }] :=
  ⟨by decide, chunk_text_short "hello".toList ['T'] ['u'] (by decide)⟩

/-- C9: when the text is longer than `CHUNK_SIZE`, every chunk's text has at
most `CHUNK_SIZE + CHUNK_OVERLAP` characters — the sentence-boundary
extension moves a cut at most `CHUNK_OVERLAP` characters past the window. -/
theorem chunk_text_size_bound (t title url : List Char) (h : CHUNK_SIZE < t.length) :
    ∀ c ∈ chunk_text t title url, c.text.length ≤ CHUNK_SIZE + CHUNK_OVERLAP := by
  intro c hc
  unfold chunk_text at hc
  rw [if_neg (by omega)] at hc
  exact ((chunkLoop_facts t title url (t.length + 1) 0 0).1 c hc).2.2.2

/-- Witness for `chunk_text_size_bound` on a 601-character text. -/
theorem chunk_text_size_bound_witness :
    CHUNK_SIZE < (List.replicate 601 'a').length ∧
      ∀ c ∈ chunk_text (List.replicate 601 'a') ['T'] ['u'],
        c.text.length ≤ CHUNK_SIZE + CHUNK_OVERLAP :=
  ⟨by decide, chunk_text_size_bound (List.replicate 601 'a') ['T'] ['u'] (by decide)⟩

/-- C5 (amended): for texts longer than `CHUNK_SIZE`, the chunks are ordered
by strictly increasing `start_pos` (consecutive starts differ by at least
`CHUNK_SIZE - CHUNK_OVERLAP`) and every span satisfies
`start_pos < end_pos ≤ len(text)`; however consecutive chunks are not in
general contiguous-or-overlapping, and the spans need not cover the text nor
end at `len(text)` — see the counterexample `chunk_text_gap_counterexample`. -/
theorem chunk_text_layout (t title url : List Char) (h : CHUNK_SIZE < t.length) :
    List.Pairwise (fun a b => a.start_pos + (CHUNK_SIZE - CHUNK_OVERLAP) ≤ b.start_pos)
      (chunk_text t title url) ∧
    ∀ c ∈ chunk_text t title url, c.start_pos < c.end_pos ∧ c.end_pos ≤ t.length := by
  haveI : IsTrans WikipediaChunk
      (fun a b => a.start_pos + (CHUNK_SIZE - CHUNK_OVERLAP) ≤ b.start_pos) :=
    ⟨fun a b c h1 h2 => le_trans h1 (le_trans (Nat.le_add_right _ _) h2)⟩
  unfold chunk_text
  rw [if_neg (by omega)]
  obtain ⟨hm, hc⟩ := chunkLoop_facts t title url (t.length + 1) 0 0
  exact ⟨List.chain'_iff_pairwise.mp hc,
    fun c hcm => ⟨(hm c hcm).2.1, (hm c hcm).2.2.1⟩⟩

/-- C5 counterexample: on the 1101-character `gapText` the produced spans are
`[0, 351)` and `[500, 851)` — a sentence boundary at index 350 ends the first
chunk at 351, yet the next window starts at 500, so positions 351–499 are in
no chunk, the two chunks are not contiguous, and the last span ends at 851,
not at 1101 (the trailing whitespace-only window was dropped). -/
theorem chunk_text_gap_counterexample :
    gapText.length = 1101 ∧
    (chunk_text gapText ['T'] ['u']).map (fun c => (c.start_pos, c.end_pos)) =
      [(0, 351), (500, 851)] ∧
    ¬ ChunkLayoutClaim (chunk_text gapText ['T'] ['u']) gapText.length := by
  decide

/-- Witness for `chunk_text_layout` at the concrete text `gapText`. -/
theorem chunk_text_layout_witness :
    CHUNK_SIZE < gapText.length ∧
      (List.Pairwise (fun a b => a.start_pos + (CHUNK_SIZE - CHUNK_OVERLAP) ≤ b.start_pos)
          (chunk_text gapText ['T'] ['u']) ∧
        ∀ c ∈ chunk_text gapText ['T'] ['u'],
          c.start_pos < c.end_pos ∧ c.end_pos ≤ gapText.length) :=
  ⟨by decide, chunk_text_layout gapText ['T'] ['u'] (by decide)⟩

theorem sourceBlock_length (i : Nat) (c : WikipediaChunk) :
    (sourceBlock i c).length =
      (Nat.toDigits 10 i).length + c.title.length + c.text.length + 13 := by
  simp [sourceBlock]
  omega

theorem blocksFrom_length (i : Nat) (cs : List WikipediaChunk) :
    (blocksFrom i cs).length = cs.length := by
  induction cs generalizing i with
  | nil => simp [blocksFrom]
  | cons c rest ih => simp [blocksFrom, ih]

theorem joinNL_length (bs : List (List Char)) (h : bs ≠ []) :
    (joinNL bs).length + 1 = (bs.map List.length).sum + bs.length := by
  induction bs with
  | nil => simp at h
  | cons b rest ih =>
    cases rest with
    | nil => simp [joinNL]
    | cons b2 rest2 =>
      have hjoin : joinNL (b :: b2 :: rest2) = b ++ '\n' :: joinNL (b2 :: rest2) := rfl
      rw [hjoin]
      have hr := ih (by simp)
      simp only [List.length_append, List.length_cons, List.map_cons, List.sum_cons] at hr ⊢
      omega

theorem formatLoop_complete : ∀ (cs : List WikipediaChunk) (i total : Nat),
    total + ((blocksFrom i cs).map List.length).sum ≤ MAX_CONTEXT_LENGTH →
    formatLoop cs i total = blocksFrom i cs := by
  intro cs
  induction cs with
  | nil => intro i total h; simp [formatLoop, blocksFrom]
  | cons c rest ih =>
    intro i total h
    simp only [blocksFrom, List.map_cons, List.sum_cons] at h ⊢
    rw [formatLoop]
    rw [if_neg (by omega)]
    congr 1
    exact ih (i + 1) (total + (sourceBlock i c).length) (by omega)

theorem formatLoop_spec : ∀ (cs : List WikipediaChunk) (i total : Nat),
    total ≤ MAX_CONTEXT_LENGTH →
    ∃ m, m ≤ cs.length ∧
      formatLoop cs i total = blocksFrom i (cs.take m) ∧
      total + ((blocksFrom i (cs.take m)).map List.length).sum ≤ MAX_CONTEXT_LENGTH ∧
      (∀ c rest, cs.drop m = c :: rest →
        MAX_CONTEXT_LENGTH <
          total + ((blocksFrom i (cs.take m)).map List.length).sum +
            (sourceBlock (i + m) c).length) := by
  intro cs
  induction cs with
  | nil =>
    intro i total h
    refine ⟨0, by simp, by simp [formatLoop, blocksFrom], by simpa [blocksFrom] using h, ?_⟩
    intro c rest hdrop
    simp at hdrop
  | cons c rest ih =>
    intro i total h
    by_cases hb : MAX_CONTEXT_LENGTH < total + (sourceBlock i c).length
    · refine ⟨0, by simp, ?_, by simpa [blocksFrom] using h, ?_⟩
      · rw [formatLoop, if_pos hb]
        simp [blocksFrom]
      · intro c2 rest2 hdrop
        simp only [List.drop_zero] at hdrop
        injection hdrop with hc hrest
        subst hc
        simpa [blocksFrom] using hb
    · have hfit : total + (sourceBlock i c).length ≤ MAX_CONTEXT_LENGTH := by omega
      obtain ⟨m, hm, heq, hsum, hover⟩ := ih (i + 1) (total + (sourceBlock i c).length) hfit
      refine ⟨m + 1, by simp; omega, ?_, ?_, ?_⟩
      · rw [formatLoop, if_neg hb]
        simp only [List.take_succ_cons, blocksFrom]
        rw [heq]
      · simp only [List.take_succ_cons, blocksFrom, List.map_cons, List.sum_cons]
        omega
      · intro c2 rest2 hdrop
        simp only [List.drop_succ_cons] at hdrop
        have hv := hover c2 rest2 hdrop
        have harith : i + 1 + m = i + (m + 1) := by omega
        rw [harith] at hv
        simp only [List.take_succ_cons, blocksFrom, List.map_cons, List.sum_cons]
        omega

/-- C8 (amended): `format_context []` is the fixed sentinel; on non-empty
input the output joins the blocks of an initial segment of the chunk list,
stopping at the first block that would overflow `MAX_CONTEXT_LENGTH`; the
counted block lengths never exceed `MAX_CONTEXT_LENGTH`, but the output
itself can exceed it by up to one uncounted join separator per included
chunk (not merely by the last chunk's formatting overhead — see
`format_context_separator_counterexample`). -/
theorem format_context_spec :
    format_context [] = noContextMsg ∧
    ∀ cs : List WikipediaChunk, cs ≠ [] → FormatContextSpec cs := by
  refine ⟨rfl, ?_⟩
  intro cs hne
  obtain ⟨m, hm, heq, hsum, hover⟩ :=
    formatLoop_spec cs 1 0 (by simp [MAX_CONTEXT_LENGTH])
  have hfc : format_context cs = joinNL (blocksFrom 1 (cs.take m)) := by
    unfold format_context
    rw [if_neg hne, heq]
  refine ⟨m, hm, hfc, by simpa using hsum, ?_, ?_⟩
  · rw [hfc]
    by_cases hbs : blocksFrom 1 (cs.take m) = []
    · rw [hbs]
      have h0 : (joinNL ([] : List (List Char))).length + 1 = 1 := rfl
      rw [h0]
      simp only [MAX_CONTEXT_LENGTH]
      omega
    · have hj := joinNL_length _ hbs
      have hlen := blocksFrom_length 1 (cs.take m)
      have htake : (cs.take m).length = m := by
        rw [List.length_take]
        omega
      rw [hlen, htake] at hj
      simp only [Nat.zero_add] at hsum
      omega
  · intro c rest hdrop
    have hv := hover c rest hdrop
    have harith : 1 + m = m + 1 := by omega
    rw [harith] at hv
    simpa using hv

/-- Witness for `format_context_spec` at the one-chunk list `[tinyChunk]`. -/
theorem format_context_spec_witness :
    ([tinyChunk] : List WikipediaChunk) ≠ [] ∧ FormatContextSpec [tinyChunk] :=
  ⟨by simp, format_context_spec.2 [tinyChunk] (by simp)⟩

/-- C8 counterexample: on `sepOverflowChunks` all twenty blocks are accepted
(their lengths sum to exactly `MAX_CONTEXT_LENGTH = 2000`), and the 19 join
separators make the output 2019 characters long — more than
`MAX_CONTEXT_LENGTH` plus the 15-character formatting overhead of the last
included chunk, contradicting the claimed bound. -/
theorem format_context_separator_counterexample :
    (format_context sepOverflowChunks).length = 2019 ∧
    (sourceBlock 20 chunk1709).length - chunk1709.text.length = 15 ∧
    MAX_CONTEXT_LENGTH + ((sourceBlock 20 chunk1709).length - chunk1709.text.length) <
      (format_context sepOverflowChunks).length := by
  have hsum : ((blocksFrom 1 sepOverflowChunks).map List.length).sum = 2000 := by
    simp [sepOverflowChunks, blocksFrom, sourceBlock_length, tinyChunk, chunk1709]
    decide
  have hloop : formatLoop sepOverflowChunks 1 0 = blocksFrom 1 sepOverflowChunks :=
    formatLoop_complete _ _ _ (by rw [Nat.zero_add, hsum]; simp [MAX_CONTEXT_LENGTH])
  have hne : sepOverflowChunks ≠ [] := by simp [sepOverflowChunks]
  have hfc : format_context sepOverflowChunks = joinNL (blocksFrom 1 sepOverflowChunks) := by
    unfold format_context
    rw [if_neg hne, hloop]
  have hbne : blocksFrom 1 sepOverflowChunks ≠ [] := by simp [sepOverflowChunks, blocksFrom]
  have hcount : (blocksFrom 1 sepOverflowChunks).length = 20 := by
    rw [blocksFrom_length]
    simp [sepOverflowChunks]
  have hj := joinNL_length _ hbne
  rw [hsum, hcount] at hj
  have hlen : (format_context sepOverflowChunks).length = 2019 := by
    rw [hfc]
    omega
  have hoverhead : (sourceBlock 20 chunk1709).length - chunk1709.text.length = 15 := by
    rw [sourceBlock_length]
    simp [chunk1709, tinyChunk]
    decide
  refine ⟨hlen, hoverhead, ?_⟩
  rw [hlen, hoverhead]
  simp [MAX_CONTEXT_LENGTH]

/-- C10: a non-empty chunk list whose first block alone overflows
`MAX_CONTEXT_LENGTH` makes `format_context` return the empty string, not the
sentinel; the sentinel is produced only for an empty input list. -/
theorem format_context_empty_not_sentinel (c : WikipediaChunk)
    (rest : List WikipediaChunk)
    (h : MAX_CONTEXT_LENGTH < (sourceBlock 1 c).length) :
    format_context (c :: rest) = [] ∧ format_context (c :: rest) ≠ noContextMsg ∧
      format_context [] = noContextMsg := by
  have hfc : format_context (c :: rest) = [] := by
    unfold format_context
    rw [if_neg (by simp)]
    rw [formatLoop, if_pos (by simpa using h)]
    rfl
  refine ⟨hfc, ?_, rfl⟩
  rw [hfc]
  decide

/-- Witness for `format_context_empty_not_sentinel` at the single chunk with
2001 characters of text, whose block has 2014 characters. -/
theorem format_context_empty_not_sentinel_witness :
    MAX_CONTEXT_LENGTH < (sourceBlock 1 chunk2001).length ∧
      (format_context [chunk2001] = [] ∧
        format_context [chunk2001] ≠ noContextMsg ∧
        format_context [] = noContextMsg) := by
  have hyp : MAX_CONTEXT_LENGTH < (sourceBlock 1 chunk2001).length := by
    rw [sourceBlock_length]
    simp [chunk2001, tinyChunk]
    decide
  exact ⟨hyp, format_context_empty_not_sentinel chunk2001 [] hyp⟩

theorem scoreSlots_length (q : List ℚ) :
    ∀ (vs : List (List ℚ)) (i : Nat), (scoreSlots q vs i).length = vs.length := by
  intro vs
  induction vs with
  | nil => intro i; simp [scoreSlots]
  | cons v rest ih => intro i; simp [scoreSlots, ih]

theorem scoreSlots_fst_lt (q : List ℚ) :
    ∀ (vs : List (List ℚ)) (i : Nat), ∀ p ∈ scoreSlots q vs i, p.1 < i + vs.length := by
  intro vs
  induction vs with
  | nil => intro i p hp; simp [scoreSlots] at hp
  | cons v rest ih =>
    intro i p hp
    rcases List.mem_cons.mp hp with rfl | hp
    · simp
    · have := ih (i + 1) p hp
      simp only [List.length_cons]
      omega

theorem lookupChunks_ok_shape (meta : List WikipediaChunk) :
    ∀ (l : List (Nat × ℚ)) (res : List (WikipediaChunk × ℚ)),
      lookupChunks meta l = .ok res → res.map Prod.snd = l.map Prod.snd := by
  intro l
  induction l with
  | nil => intro res h; simp [lookupChunks] at h; simp [← h]
  | cons p rest ih =>
    intro res h
    rw [lookupChunks] at h
    cases hm : meta.get? p.1 with
    | none => rw [hm] at h; simp at h
    | some c =>
      rw [hm] at h
      cases hin : lookupChunks meta rest with
      | error e => rw [hin] at h; simp [Except.map] at h
      | ok res2 =>
        rw [hin] at h
        simp only [Except.map] at h
        injection h with h
        subst h
        simp [ih res2 hin]

theorem lookupChunks_ok_of_lt (meta : List WikipediaChunk) :
    ∀ l : List (Nat × ℚ), (∀ p ∈ l, p.1 < meta.length) →
      ∃ res, lookupChunks meta l = .ok res := by
  intro l
  induction l with
  | nil => intro _; exact ⟨[], rfl⟩
  | cons p rest ih =>
    intro hall
    obtain ⟨res2, hres2⟩ := ih fun p hp => hall p (List.mem_cons_of_mem _ hp)
    cases hm : meta.get? p.1 with
    | none =>
      have := List.get?_eq_none.mp hm
      have := hall p (List.mem_cons_self _ _)
      omega
    | some c =>
      refine ⟨(c, p.2) :: res2, ?_⟩
      rw [lookupChunks, hm, hres2]
      rfl

theorem search_ok_sorted {s : VectorStore} {q : List ℚ} {k : Nat}
    {l : List (WikipediaChunk × ℚ)} (h : s.search q k = .ok l) :
    List.Pairwise (fun a b : WikipediaChunk × ℚ => b.2 ≤ a.2) l := by
  unfold VectorStore.search at h
  by_cases h0 : s.vectors.length = 0
  · rw [if_pos h0] at h
    injection h with h
    subst h
    simp
  · rw [if_neg h0] at h
    have hsnd := lookupChunks_ok_shape s.metadata _ l h
    have hsorted : List.Pairwise scoreGE
        ((List.insertionSort scoreGE (scoreSlots q s.vectors 0)).take
          (min k s.vectors.length)) :=
      List.Pairwise.sublist (List.take_sublist _ _) (List.sorted_insertionSort scoreGE _)
    have h1 : List.Pairwise (fun x y : ℚ => y ≤ x)
        (((List.insertionSort scoreGE (scoreSlots q s.vectors 0)).take
          (min k s.vectors.length)).map Prod.snd) :=
      List.pairwise_map.mpr (hsorted.imp fun hab => hab)
    rw [← hsnd] at h1
    exact (List.pairwise_map.mp h1).imp fun hab => hab

theorem search_ok_of_consistent {s : VectorStore} {q : List ℚ} {k : Nat}
    (hc : s.metadata.length = s.vectors.length) (hne : s.vectors ≠ []) :
    ∃ l, s.search q k = .ok l ∧ l.length = min k s.vectors.length := by
  have h0 : ¬ s.vectors.length = 0 := by
    intro h
    exact hne (List.length_eq_zero.mp h)
  have hmem : ∀ p ∈ (List.insertionSort scoreGE (scoreSlots q s.vectors 0)).take
      (min k s.vectors.length), p.1 < s.metadata.length := by
    intro p hp
    have hp2 : p ∈ List.insertionSort scoreGE (scoreSlots q s.vectors 0) :=
      (List.take_sublist _ _).mem hp
    have hp3 : p ∈ scoreSlots q s.vectors 0 := (List.mem_insertionSort scoreGE).mp hp2
    have := scoreSlots_fst_lt q s.vectors 0 p hp3
    omega
  obtain ⟨res, hres⟩ := lookupChunks_ok_of_lt s.metadata _ hmem
  refine ⟨res, ?_, ?_⟩
  · unfold VectorStore.search
    rw [if_neg h0]
    exact hres
  · have hsnd := lookupChunks_ok_shape s.metadata _ res hres
    have hlen := congrArg List.length hsnd
    simp only [List.length_map] at hlen
    rw [hlen, List.length_take, List.length_insertionSort, scoreSlots_length]
    omega

/-- C7: `search` on an empty store returns `ok []` for every query and `k`
(the empty guard fires before anything can fail); on a consistent non-empty
store it returns `ok` with exactly `min k storedCount` chunk–score pairs,
ordered by descending score. -/
theorem search_spec :
    (∀ (s : VectorStore) (q : List ℚ) (k : Nat), s.vectors = [] → s.search q k = .ok []) ∧
    (∀ (s : VectorStore) (q : List ℚ) (k : Nat),
      s.metadata.length = s.vectors.length → s.vectors ≠ [] →
      ∃ l, s.search q k = .ok l ∧ l.length = min k s.vectors.length ∧
        List.Pairwise (fun a b : WikipediaChunk × ℚ => b.2 ≤ a.2) l) := by
  constructor
  · intro s q k h
    unfold VectorStore.search
    rw [if_pos (by simp [h])]
  · intro s q k hc hne
    obtain ⟨l, hl, hlen⟩ := search_ok_of_consistent (q := q) (k := k) hc hne
    exact ⟨l, hl, hlen, search_ok_sorted hl⟩

/-- Witness for `search_spec`: the empty store and the one-entry store. -/
theorem search_spec_witness :
    emptyStore1.search [1] 5 = .ok [] ∧
    ∃ l, oneStore.search [1] 5 = .ok l ∧ l.length = min 5 oneStore.vectors.length ∧
      List.Pairwise (fun a b : WikipediaChunk × ℚ => b.2 ≤ a.2) l :=
  ⟨search_spec.1 emptyStore1 [1] 5 rfl,
   search_spec.2 oneStore [1] 5 (by simp [oneStore]) (by simp [oneStore])⟩

/-- C2: the body of `add_embeddings` validates nothing itself.  With two
vectors and one chunk (mismatched counts) it succeeds, adding both vectors
and the single chunk and leaving the store inconsistent — the claimed
`DimensionMismatchError` is never raised and entries are added.  Only a row
of the wrong dimension fails (inside the FAISS `index.add` call), before any
metadata is touched. -/
theorem add_embeddings_no_length_check :
    (emptyStore1.add_embeddings [[1], [2]] [sampleChunk] =
      .ok { embedding_dim := 1, vectors := [[1], [2]], metadata := [sampleChunk] }) ∧
    (emptyStore1.add_embeddings [[1, 2]] [sampleChunk] = .error .dimensionMismatch) :=
  ⟨by decide, by decide⟩

theorem filtered_snd_sorted {l : List (WikipediaChunk × ℚ)}
    (h : List.Pairwise (fun a b : WikipediaChunk × ℚ => b.2 ≤ a.2) l) :
    List.Pairwise (fun a b : ℚ => b ≤ a)
      ((l.filter fun p => MIN_SIMILARITY_THRESHOLD ≤ p.2).map Prod.snd) ∧
    ∀ x ∈ (l.filter fun p => MIN_SIMILARITY_THRESHOLD ≤ p.2).map Prod.snd,
      MIN_SIMILARITY_THRESHOLD ≤ x := by
  constructor
  · exact List.pairwise_map.mpr ((h.filter _).imp fun hab => hab)
  · intro x hx
    obtain ⟨p, hp, rfl⟩ := List.mem_map.mp hx
    have := List.of_mem_filter hp
    simpa using this

theorem reindexStep_ok_snd_sorted {store : VectorStore} {c : RagCollab} {qe : List ℚ}
    {first : List (WikipediaChunk × ℚ)} {sr : VectorStore × List (WikipediaChunk × ℚ)}
    (hfs : List.Pairwise (fun a b : WikipediaChunk × ℚ => b.2 ≤ a.2) first)
    (h : reindexStep store c qe first = .ok sr) :
    List.Pairwise (fun a b : WikipediaChunk × ℚ => b.2 ≤ a.2) sr.2 := by
  unfold reindexStep at h
  cases hf : c.fetchChunks with
  | error e => rw [hf] at h; simp [bind, Except.bind] at h
  | ok new_chunks =>
    rw [hf] at h
    simp only [bind, Except.bind] at h
    by_cases hnew : new_chunks = []
    · rw [if_pos hnew] at h
      simp only [pure, Except.pure] at h
      injection h with h
      subst h
      exact hfs
    · rw [if_neg hnew] at h
      cases he : c.embedPassages (new_chunks.map (·.text)) with
      | error e => rw [he] at h; simp at h
      | ok embeddings =>
        rw [he] at h
        simp only at h
        cases ha : store.add_embeddings embeddings new_chunks with
        | error e => rw [ha] at h; simp at h
        | ok store2 =>
          rw [ha] at h
          simp only at h
          cases hsv : c.saveIndex with
          | error e => rw [hsv] at h; simp at h
          | ok u =>
            rw [hsv] at h
            simp only at h
            cases hse : store2.search qe TOP_K_RETRIEVAL with
            | error e => rw [hse] at h; simp at h
            | ok results =>
              rw [hse] at h
              simp only [pure, Except.pure] at h
              injection h with h
              subst h
              by_cases hres : results = []
              · simpa [hres] using hfs
              · simpa [hres] using search_ok_sorted hse

/-- C4: auto-indexing is skipped exactly when the first search is non-empty
with max score at least `auto_index_threshold` — in that case the result is
the threshold-filtered first search, untouched store, independent of every
other collaborator; otherwise the call is exactly the re-index branch
(`reindexStep`) followed by the same filtering; and every successful outcome
returns exactly the searched results with score at least
`MIN_SIMILARITY_THRESHOLD`, in descending score order. -/
theorem retrieve_context_branching (store : VectorStore) (c : RagCollab)
    (qe : List ℚ) (first : List (WikipediaChunk × ℚ))
    (hq : c.embedQuery = .ok qe)
    (hs : store.search qe TOP_K_RETRIEVAL = .ok first) :
    ((first ≠ [] ∧ auto_index_threshold ≤ maxScore first) →
      retrieve_context store c =
        .ok (store,
          (first.filter fun p => MIN_SIMILARITY_THRESHOLD ≤ p.2).map Prod.fst,
          (first.filter fun p => MIN_SIMILARITY_THRESHOLD ≤ p.2).map Prod.snd)) ∧
    (¬ (first ≠ [] ∧ auto_index_threshold ≤ maxScore first) →
      retrieve_context store c =
        (reindexStep store c qe first).bind fun sr =>
          .ok (sr.1,
            (sr.2.filter fun p => MIN_SIMILARITY_THRESHOLD ≤ p.2).map Prod.fst,
            (sr.2.filter fun p => MIN_SIMILARITY_THRESHOLD ≤ p.2).map Prod.snd)) ∧
    (∀ (s2 : VectorStore) (cs : List WikipediaChunk) (ss : List ℚ),
      retrieve_context store c = .ok (s2, cs, ss) →
      List.Pairwise (fun a b : ℚ => b ≤ a) ss ∧
        ∀ x ∈ ss, MIN_SIMILARITY_THRESHOLD ≤ x) := by
  have hunfold : retrieve_context store c =
      if first ≠ [] ∧ auto_index_threshold ≤ maxScore first then
        .ok (store,
          (first.filter fun p => MIN_SIMILARITY_THRESHOLD ≤ p.2).map Prod.fst,
          (first.filter fun p => MIN_SIMILARITY_THRESHOLD ≤ p.2).map Prod.snd)
      else
        (reindexStep store c qe first).bind fun sr =>
          .ok (sr.1,
            (sr.2.filter fun p => MIN_SIMILARITY_THRESHOLD ≤ p.2).map Prod.fst,
            (sr.2.filter fun p => MIN_SIMILARITY_THRESHOLD ≤ p.2).map Prod.snd) := by
    unfold retrieve_context
    rw [hq]
    simp only [bind, Except.bind]
    rw [hs]
    rfl
  refine ⟨?_, ?_, ?_⟩
  · intro hskip
    rw [hunfold, if_pos hskip]
  · intro hskip
    rw [hunfold, if_neg hskip]
  · intro s2 cs ss hok
    rw [hunfold] at hok
    have hfs := search_ok_sorted hs
    split at hok
    · injection hok with h1
      have hss : (first.filter fun p =>
          MIN_SIMILARITY_THRESHOLD ≤ p.2).map Prod.snd = ss :=
        congrArg (fun t => t.2.2) h1
      rw [← hss]
      exact filtered_snd_sorted hfs
    · cases hre : reindexStep store c qe first with
      | error e => rw [hre] at hok; simp [Except.bind] at hok
      | ok sr =>
        rw [hre] at hok
        simp only [Except.bind] at hok
        injection hok with h1
        have hsorted := reindexStep_ok_snd_sorted hfs hre
        have hss : (sr.2.filter fun p =>
            MIN_SIMILARITY_THRESHOLD ≤ p.2).map Prod.snd = ss :=
          congrArg (fun t => t.2.2) h1
        rw [← hss]
        exact filtered_snd_sorted hsorted

/-- Witness for `retrieve_context_branching`: on a store whose single entry
scores 1 ≥ 0.8 against the query, the skip branch fires even though the
fetch and passage-embedding collaborators would fail if consulted. -/
theorem retrieve_context_branching_witness :
    retrieve_context oneStore embedFailCollab =
      .ok (oneStore,
        (([(sampleChunk, (1 : ℚ))].filter fun p =>
          MIN_SIMILARITY_THRESHOLD ≤ p.2).map Prod.fst),
        (([(sampleChunk, (1 : ℚ))].filter fun p =>
          MIN_SIMILARITY_THRESHOLD ≤ p.2).map Prod.snd)) := by
  have hs : oneStore.search [1] TOP_K_RETRIEVAL = .ok [(sampleChunk, 1)] := by
    simp [VectorStore.search, oneStore, scoreSlots, dotQ, List.insertionSort,
      List.orderedInsert, scoreGE, lookupChunks, Except.map]
  exact (retrieve_context_branching oneStore embedFailCollab [1] [(sampleChunk, 1)]
    rfl hs).1 ⟨by simp, by norm_num [maxScore, auto_index_threshold]⟩

/-- C1 counterexample: with an empty store, a fetcher that finds one new
chunk, and a passage-embedding collaborator that raises, `retrieve_context`
does not return normally — the embedding exception propagates to the caller
(there is no `try`/`except` in `retrieve_context`). -/
theorem retrieve_context_embed_failure_propagates :
    retrieve_context emptyStore1 embedFailCollab = .error .embeddingFailure := by
  rfl

/-- C1 (amended): failures of the content fetcher are caught inside the
retriever itself — a raising Wikipedia search makes `retrieve_and_chunk`
return no chunks — and `retrieve_context` then returns normally with the
filtered first-search results; but a failure of the passage-embedding step
during re-indexing is not caught anywhere in `retrieve_context` and
propagates (`retrieve_context_embed_failure_propagates`). -/
theorem retrieve_context_fetch_failure_degrades :
    (∀ (e : PyExc) (page : List Char → PageOutcome),
      retrieve_and_chunk (.error e) page = []) ∧
    (∀ (store : VectorStore) (c : RagCollab) (qe : List ℚ)
      (first : List (WikipediaChunk × ℚ)),
      c.embedQuery = .ok qe →
      store.search qe TOP_K_RETRIEVAL = .ok first →
      c.fetchChunks = .ok [] →
      retrieve_context store c =
        .ok (store,
          (first.filter fun p => MIN_SIMILARITY_THRESHOLD ≤ p.2).map Prod.fst,
          (first.filter fun p => MIN_SIMILARITY_THRESHOLD ≤ p.2).map Prod.snd)) := by
  constructor
  · intro e page
    rfl
  · intro store c qe first hq hs hfetch
    obtain ⟨hskip, hreindex, -⟩ := retrieve_context_branching store c qe first hq hs
    by_cases hcond : first ≠ [] ∧ auto_index_threshold ≤ maxScore first
    · exact hskip hcond
    · rw [hreindex hcond]
      unfold reindexStep
      rw [hfetch]
      rfl

/-- Witness for `retrieve_context_fetch_failure_degrades`: a failing
Wikipedia search yields no chunks, and a retrieval over the empty store with
that empty fetch result returns normally with empty results. -/
theorem retrieve_context_fetch_failure_degrades_witness :
    retrieve_and_chunk (.error .fetchFailure) (fun _ => .pageError) = [] ∧
    retrieve_context emptyStore1 fetchFailCollab = .ok (emptyStore1, [], []) :=
  ⟨retrieve_context_fetch_failure_degrades.1 .fetchFailure (fun _ => .pageError),
   retrieve_context_fetch_failure_degrades.2 emptyStore1 fetchFailCollab [1] []
     rfl rfl rfl⟩

theorem takeRecentLoop_sum_le (m : MemoryManager) :
    ∀ (l : List ChatMessage) (budget : Int),
      (((takeRecentLoop m l budget).map m.count_message_tokens).sum : Int) ≤
        max budget 0 := by
  intro l
  induction l with
  | nil => intro budget; simp [takeRecentLoop]
  | cons msg rest ih =>
    intro budget
    rw [takeRecentLoop]
    by_cases hfit : (m.count_message_tokens msg : Int) ≤ budget
    · rw [if_pos hfit]
      have := ih (budget - m.count_message_tokens msg)
      simp only [List.map_append, List.sum_append, List.map_cons, List.sum_cons,
        List.map_nil, List.sum_nil] at this ⊢
      push_cast at this ⊢
      omega
    · rw [if_neg hfit]
      simp

theorem pySliceLast_sum_le (f : ChatMessage → Nat) (n : Nat) (l : List ChatMessage) :
    ((pySliceLast n l).map f).sum ≤ (l.map f).sum := by
  unfold pySliceLast
  split
  · exact le_refl _
  · conv_rhs => rw [← List.take_append_drop (l.length - n) l]
    rw [List.map_append, List.sum_append]
    omega

theorem pySliceLast_getLast? (n : Nat) (l : List ChatMessage) :
    (pySliceLast n l).getLast? = l.getLast? := by
  unfold pySliceLast
  split
  · rfl
  · by_cases hlen : l.length ≤ l.length - n
    · rw [show l.length - n = 0 by omega, List.drop_zero]
    · conv_rhs => rw [← List.take_append_drop (l.length - n) l]
      rw [List.getLast?_append]
      have hne : l.drop (l.length - n) ≠ [] := by
        intro hcontra
        have := List.drop_eq_nil_iff.mp hcontra
        omega
      rw [List.getLast?_eq_getLast_of_ne_nil hne]
      simp

theorem pySliceLast_ne_nil {n : Nat} {l : List ChatMessage} (h : l ≠ []) :
    pySliceLast n l ≠ [] := by
  intro hcontra
  have h1 := pySliceLast_getLast? n l
  rw [hcontra, List.getLast?_eq_getLast_of_ne_nil h] at h1
  simp at h1

theorem sysMessages_sum (m : MemoryManager) (sys : Option String) :
    ((MemoryManager.sysMessages sys).map m.count_message_tokens).sum =
      m.sysCost sys := by
  cases sys with
  | none => rfl
  | some s =>
    by_cases hlen : s.length ≠ 0 <;>
      simp [MemoryManager.sysMessages, MemoryManager.sysCost, hlen]

theorem apply_truncation_sum_le (m : MemoryManager) (msgs : List ChatMessage)
    (available : Int) :
    ((m.apply_truncation_strategy msgs available).map m.count_message_tokens).sum ≤
      (max available 0).toNat := by
  unfold MemoryManager.apply_truncation_strategy
  have hsum := takeRecentLoop_sum_le m msgs.reverse available
  split
  · have hslice := pySliceLast_sum_le m.count_message_tokens m.max_history
      (takeRecentLoop m msgs.reverse available)
    omega
  · omega

/-- C3 (amended): for message lists without deleted entries and a system
prompt that itself fits the window, the total token count reported by
`prepare_context` never exceeds `context_window_tokens` plus the fixed
structural overhead of 10 that `count_messages_tokens` adds on top of the
per-message costs used for selection (it can exceed `context_window_tokens`
itself by up to that overhead — see
`prepare_context_total_exceeds_window`); and the most recent message is
always included — as the last element of the returned list — whenever its
cost alone fits the remaining budget. -/
theorem prepare_context_budget (m : MemoryManager) (messages : List Message)
    (sys : Option String)
    (hlive : ∀ d ∈ messages, d.is_deleted = false)
    (hsys : m.sysCost sys ≤ m.context_window_tokens) :
    (m.prepare_context messages sys).2 ≤ m.context_window_tokens + 10 ∧
    ∀ hne : messages ≠ [],
      (m.count_message_tokens (toChatMessage (messages.getLast hne)) : Int) ≤
        (m.context_window_tokens : Int) - (m.sysCost sys : Int) →
      ((m.prepare_context messages sys).1).getLast? =
        some (toChatMessage (messages.getLast hne)) := by
  have hfilter : messages.filter (fun d => !d.is_deleted) = messages :=
    List.filter_eq_self.mpr fun d hd => by simp [hlive d hd]
  constructor
  · simp only [MemoryManager.prepare_context, MemoryManager.count_messages_tokens,
      List.map_append, List.sum_append]
    have hctx := apply_truncation_sum_le m
      ((messages.filter fun d => !d.is_deleted).map toChatMessage)
      ((m.context_window_tokens : Int) - (m.sysCost sys : Int))
    have hsys2 := sysMessages_sum m sys
    omega
  · intro hne hfit
    obtain ⟨l2, a, rfl⟩ : ∃ l2 a, messages = l2 ++ [a] :=
      ⟨messages.dropLast, messages.getLast hne,
        (List.dropLast_append_getLast hne).symm⟩
    have hlast : (l2 ++ [a]).getLast hne = a := by
      simp [List.getLast_append]
    rw [hlast] at hfit ⊢
    simp only [MemoryManager.prepare_context, hfilter]
    have hrev : ((l2 ++ [a]).map toChatMessage).reverse =
        toChatMessage a :: (l2.map toChatMessage).reverse := by
      simp
    have hloop : takeRecentLoop m ((l2 ++ [a]).map toChatMessage).reverse
        ((m.context_window_tokens : Int) - (m.sysCost sys : Int)) =
        takeRecentLoop m (l2.map toChatMessage).reverse
          (((m.context_window_tokens : Int) - (m.sysCost sys : Int)) -
            m.count_message_tokens (toChatMessage a)) ++ [toChatMessage a] := by
      rw [hrev, takeRecentLoop, if_pos hfit]
    have hpre_ne : takeRecentLoop m ((l2 ++ [a]).map toChatMessage).reverse
        ((m.context_window_tokens : Int) - (m.sysCost sys : Int)) ≠ [] := by
      rw [hloop]
      simp
    have hpre_last : (takeRecentLoop m ((l2 ++ [a]).map toChatMessage).reverse
        ((m.context_window_tokens : Int) - (m.sysCost sys : Int))).getLast? =
        some (toChatMessage a) := by
      rw [hloop]
      exact List.getLast?_concat _
    set pre := takeRecentLoop m ((l2 ++ [a]).map toChatMessage).reverse
      ((m.context_window_tokens : Int) - (m.sysCost sys : Int)) with hpre
    have hctx_last : (m.apply_truncation_strategy ((l2 ++ [a]).map toChatMessage)
        ((m.context_window_tokens : Int) - (m.sysCost sys : Int))).getLast? =
        some (toChatMessage a) := by
      unfold MemoryManager.apply_truncation_strategy
      rw [← hpre]
      split
      · rw [pySliceLast_getLast? m.max_history pre]
        exact hpre_last
      · exact hpre_last
    have hctx_ne : m.apply_truncation_strategy ((l2 ++ [a]).map toChatMessage)
        ((m.context_window_tokens : Int) - (m.sysCost sys : Int)) ≠ [] := by
      intro hcontra
      rw [hcontra] at hctx_last
      simp at hctx_last
    rw [List.getLast?_append, hctx_last]
    rfl

/-- C3 counterexample: with a 14-token window (no system prompt) and a single
live message costing 14 tokens, selection accepts the message (14 ≤ 14), yet
the reported total is 14 + 10 = 24 — `count_messages_tokens` adds a
structural overhead of 10 that the selection budget ignores, so the returned
total exceeds `context_window_tokens` although the input messages alone
(24 tokens by the same counting) already overflow the window. -/
theorem prepare_context_total_exceeds_window :
    smallMgr.count_messages_tokens [toChatMessage msg40] = 24 ∧
    smallMgr.context_window_tokens = 14 ∧
    (smallMgr.prepare_context [msg40] none).2 = 24 :=
  ⟨by decide, rfl, by decide⟩

/-- Witness for `prepare_context_budget`: a 100-token window and one 14-token
message. -/
theorem prepare_context_budget_witness :
    (midMgr.prepare_context [msg40] none).2 ≤ midMgr.context_window_tokens + 10 ∧
    ((midMgr.prepare_context [msg40] none).1).getLast? =
      some (toChatMessage msg40) := by
  have h := prepare_context_budget midMgr [msg40] none (by decide) (by decide)
  exact ⟨h.1, h.2 (by simp) (by decide)⟩
